import Mathlib

/-!
Verification of the client-side Enrollment and Attendance State Engine of
csm_web, shallowly embedded from the frontend components
`Course.js`, `MentorSection.js` and the student section component
(`StudentSection` / `DropSection`).

Conventions of the embedding:
* JavaScript numbers holding ids and counts are embedded as `Nat` / `Int`.
* `moment` timestamp values are opaque to the core (the spec treats date
  parsing as an external collaborator), so they are embedded as `Int`
  (comparison of moments coincides with comparison of their values).
* JavaScript strings are embedded as `String`; for the date-string parser
  `parseDate`, strings are embedded as `List Char` so that `split` and
  `trim` can be reasoned about structurally.
* Code that can throw (undefined property access, unbound identifiers)
  is embedded in `Option`, with `none` for the thrown exception.
-/

namespace CsmWeb

/-! ### Data model (Course.js, MentorSection.js) -/

/-- Course record as consumed by `Course.js`: `id`, `name` and the
enrollment window timestamps `enrollmentStart` / `enrollmentEnd`
(moment values, embedded as `Int`). -/
structure CourseInfo where
  id : Nat
  name : String
  enrollmentStart : Int
  enrollmentEnd : Int
deriving DecidableEq, Repr

/-- Default space-time descriptor of a section
(`section.defaultSpacetime`): weekday name, start time
(the moment value of the `"HH:mm:ss"` wire string, embedded as `Int`),
and location. -/
structure Spacetime where
  dayOfWeek : String
  startTime : Int
  location : String
deriving DecidableEq, Repr

/-- Section record as consumed by `Course.js`: id, default space-time,
current enrolled count and capacity. -/
structure Section where
  id : Nat
  defaultSpacetime : Spacetime
  enrolledStudents : Int
  capacity : Int
deriving DecidableEq, Repr

/-- Enrollment profile record fetched from `/scheduler/profiles/`;
only its `course` field (the course id) is read by `Course.js`. -/
structure Profile where
  course : Nat
deriving DecidableEq, Repr

/-! ### TimeWindow evaluator (Course.js lines 68-74) -/

/-- Course.js `updateCourse`:
`enrollmentOpen: now > enrollmentStart && now < enrollmentEnd`.
Both comparisons are strict. -/
def enrollmentOpen (now enrollmentStart enrollmentEnd : Int) : Bool :=
  decide (enrollmentStart < now) && decide (now < enrollmentEnd)

/-! ### Enrollment decision engine (Course.js lines 186-260) -/

/-- Course.js `SectionEnroll`:
`available = props.section.capacity - props.section.enrolledStudents`. -/
def available (s : Section) : Int :=
  s.capacity - s.enrolledStudents

/-- Course.js `SectionEnroll`:
`pluralized_spot = available === 1 ? "spot" : "spots"`. -/
def pluralized_spot (s : Section) : String :=
  if available s = 1 then "spot" else "spots"

/-- Course.js `SectionEnroll`:
`disabled = props.enrolled || !props.enrollmentOpen || available === 0`.
`enrolled` and `isOpen` are the `props.enrolled` / `props.enrollmentOpen`
booleans passed down from the `Course` component state. -/
def enrollDisabled (enrolled isOpen : Bool) (s : Section) : Bool :=
  enrolled || !isOpen || decide (available s = 0)

/-- Course.js `updateCourse`, lines 79-83: the boolean written to the
`enrolled` state field, expressed over the id the continuation tries to
read: `profiles.map(profile => profile.course).includes(<courseId>)`. -/
def enrolledFlag (profiles : List Profile) (courseId : Nat) : Bool :=
  (profiles.map (·.course)).contains courseId

/-- Component state of `Course` as read through the identifier `state`
inside the profiles continuation (`state.course.id`). -/
structure CourseComponentState where
  course : CourseInfo
deriving DecidableEq, Repr

/-- Scope lookup for the identifier `state` inside the
`.then(profiles => ...)` continuation of `updateCourse`
(Course.js line 82).  The continuation's enclosing scopes
(`updateCourse`, class body, module) bind no variable named `state`
(the component state is only reachable as `this.state`), so the lookup
fails: embedded as `none`. -/
def stateBinding : Option CourseComponentState := none

/-- Course.js lines 78-84: the profiles continuation.  It evaluates
`profiles.map(profile => profile.course).includes(state.course.id)`,
where `state` resolves to no binding (see `stateBinding`), so the
evaluation raises a ReferenceError before `setState` is reached:
embedded as an `Option` that is `none` when the identifier lookup
fails, and otherwise carries the flag value that would be stored. -/
def profilesContinuation (profiles : List Profile) : Option Bool :=
  stateBinding.map (fun st => enrolledFlag profiles st.course.id)

/-- Enroll failure payload decoded from the rejected enroll response:
`body.shortCode` and `body.message` (Course.js `handleClick`). -/
structure EnrollBody where
  shortCode : String
  message : String
deriving DecidableEq, Repr

/-- Course.js `handleClick`, lines 203-223 (the `!ok` branch): the
`switch (body.shortCode)` mapping a rejection to the surfaced
`errorMessage`, paired with the list of lines written to the console
(the `default` branch logs the generic message and `body.message`). -/
def handleEnrollFailure (body : EnrollBody) : String × List String :=
  match body.shortCode with
  | "already_enrolled" =>
    ("You are already enrolled in this course. You can only enroll in one section per course.", [])
  | "course_closed" =>
    ("This course is not currently open for enrollment.", [])
  | "section_full" =>
    ("This course is not currently open for enrollment.", [])
  | _ =>
    ("An unknown error has occurred.", ["An unknown error has occurred.", body.message])

/-- The three recognized rejection reason codes of the enroll endpoint. -/
def knownEnrollCodes : List String :=
  ["already_enrolled", "course_closed", "section_full"]

/-! ### Drop workflow (StudentSection `DropSection`) -/

/-- `DropSection.STAGES = Object.freeze({INITIAL, CONFIRM, DROPPED})`. -/
inductive DropStage where
  | INITIAL : DropStage
  | CONFIRM : DropStage
  | DROPPED : DropStage
deriving DecidableEq, Repr

/-- User events the `DropSection` component can receive: clicking the
Drop button, closing the confirmation modal, clicking Confirm. -/
inductive DropEvent where
  | requestDrop : DropEvent
  | cancel : DropEvent
  | confirm : DropEvent
deriving DecidableEq, Repr

/-- Which event handlers `DropSection.render` attaches in each stage:
`INITIAL` renders only the Drop button (`onClick` sets stage CONFIRM);
`CONFIRM` renders the modal (`closeModal` sets stage INITIAL) and the
Confirm button (`onClick` is `performDrop`); `DROPPED` renders a
redirect with no handlers. -/
def dropHandled : DropStage → DropEvent → Bool
  | DropStage.INITIAL, DropEvent.requestDrop => true
  | DropStage.CONFIRM, DropEvent.cancel => true
  | DropStage.CONFIRM, DropEvent.confirm => true
  | _, _ => false

/-- Transition function of the `DropSection` state machine, paired with
the number of remote drop calls (`fetchWithMethod` PATCH) the
transition fires.  An event whose handler is not rendered in the
current stage leaves the state unchanged and fires nothing.  The
component state is exactly `{ stage }`, so returning `INITIAL` returns
a state identical to the initial one. -/
def dropStep : DropStage → DropEvent → DropStage × Nat
  | DropStage.INITIAL, DropEvent.requestDrop => (DropStage.CONFIRM, 0)
  | DropStage.CONFIRM, DropEvent.cancel => (DropStage.INITIAL, 0)
  | DropStage.CONFIRM, DropEvent.confirm => (DropStage.DROPPED, 1)
  | s, _ => (s, 0)

/-- Atomic actions of the `performDrop` method, in temporal order:
dispatching the remote PATCH, the settling of its promise (with the
response success flag), and a `setState` changing the stage. -/
inductive DropAction where
  | remoteDropCall : DropAction
  | remoteDropComplete (ok : Bool) : DropAction
  | setStage (s : DropStage) : DropAction
deriving DecidableEq, Repr

/-- `performDrop` (StudentSection lines 104-109):
`fetchWithMethod(...).then(() => this.setState({stage: DROPPED}))`.
The action trace: the call is dispatched, its promise settles with
response flag `ok`, and only then the continuation runs and sets the
stage to `DROPPED` — the continuation ignores the response, so the
`setStage` happens for any `ok`. -/
def performDropTrace (ok : Bool) : List DropAction :=
  [DropAction.remoteDropCall, DropAction.remoteDropComplete ok,
   DropAction.setStage DropStage.DROPPED]

/-- Index of the first occurrence of an element in a list. -/
def firstIdx {β : Type} [DecidableEq β] (a : β) : List β → Option Nat
  | [] => none
  | x :: xs => if x = a then some 0 else (firstIdx a xs).map (· + 1)

/-- `occursBefore a b tr` holds when both `a` and `b` occur in `tr` and
the first occurrence of `a` is strictly before the first of `b`. -/
def occursBefore {β : Type} [DecidableEq β] (a b : β) (tr : List β) : Bool :=
  match firstIdx a tr, firstIdx b tr with
  | some i, some j => decide (i < j)
  | _, _ => false

/-- The stage reached after running the `setStage` actions of a trace
from an initial stage. -/
def stageAfter (s0 : DropStage) (tr : List DropAction) : DropStage :=
  tr.foldl (fun s act => match act with
    | DropAction.setStage s2 => s2
    | _ => s) s0

/-- Number of remote drop dispatches in a trace. -/
def dropCallCount (tr : List DropAction) : Nat :=
  tr.countP (fun a => decide (a = DropAction.remoteDropCall))

/-- Number of stage changes in a trace. -/
def setStageCount (tr : List DropAction) : Nat :=
  tr.countP (fun a => match a with
    | DropAction.setStage _ => true
    | _ => false)

/-! ### Weekly cohort grouper (lodash `groupBy`) -/

/-- First-match lookup of a key among grouped entries; `none` when the
key is absent (a JavaScript property read yielding `undefined`). -/
def getGroup? {α κ : Type} [DecidableEq κ] (k : κ) :
    List (κ × List α) → Option (List α)
  | [] => none
  | (k2, vs) :: rest => if k = k2 then some vs else getGroup? k rest

/-- Lookup of a key among grouped entries, defaulting to the empty
group when the key is absent. -/
def getGroup {α κ : Type} [DecidableEq κ] (k : κ)
    (groups : List (κ × List α)) : List α :=
  (getGroup? k groups).getD []

/-- Embedding of lodash `groupBy(collection, key)`: a list of
(key, group) entries, keys in first-occurrence order of the input
(JavaScript object string keys preserve insertion order), each group
holding its elements in input order (lodash grouping is stable). -/
def groupByKey {α κ : Type} [DecidableEq κ] (key : α → κ) :
    List α → List (κ × List α)
  | [] => []
  | x :: xs =>
    let rest := groupByKey key xs
    (key x, x :: getGroup (key x) rest) ::
      rest.filter (fun p => decide (p.fst ≠ key x))

/-! ### Mentor attendance view (MentorSection.js) -/

/-- Raw attendance record inside a student payload from
`/sections/{id}/students/`: id, presence code, week-start date string. -/
structure Attendance where
  id : Nat
  presence : String
  weekStart : String
deriving DecidableEq, Repr

/-- Student payload from `/sections/{id}/students/`. -/
structure StudentData where
  name : String
  email : String
  id : Nat
  attendances : List Attendance
deriving DecidableEq, Repr

/-- Flat attendance record after `MentorSection` attaches the owning
student: `{...attendance, student: {name, id}}`. -/
structure AttRecord where
  id : Nat
  presence : String
  weekStart : String
  studentName : String
  studentId : Nat
deriving DecidableEq, Repr

/-- MentorSection.js lines 17-21: the `flatMap` attaching each
student's name and id to each of their attendance records. -/
def flattenAttendances (data : List StudentData) : List AttRecord :=
  data.flatMap (fun s =>
    s.attendances.map (fun a =>
      ⟨a.id, a.presence, a.weekStart, s.name, s.id⟩))

/-- MentorSection.js lines 16-23: the weekly cohort grouping,
`groupBy(flat.reverse(), attendance => attendance.weekStart)` —
the whole flat sequence is reversed first, then grouped by week-start. -/
def groupAttendances (flat : List AttRecord) : List (String × List AttRecord) :=
  groupByKey (fun a => a.weekStart) flat.reverse

/-- The full `attendances` state value computed by `MentorSection`. -/
def mentorAttendances (data : List StudentData) : List (String × List AttRecord) :=
  groupAttendances (flattenAttendances data)

/-- MentorSectionAttendance, line 100:
`selectedWeek = this.state.selectedWeek || (loaded && Object.keys(attendances)[0])`.
A stored key (a nonempty date string, hence truthy) wins; otherwise,
once loaded, the first key of the grouping (`undefined`, i.e. `none`,
when the grouping is empty); before loading the value is falsy. -/
def defaultSelectedWeek (stored : Option String) (loaded : Bool)
    (keys : List String) : Option String :=
  match stored with
  | some w => some w
  | none => if loaded then keys.head? else none

/-- MentorSectionAttendance, lines 119-139: the table body renders
`selectedWeek && attendances[selectedWeek].map(...)`.  A falsy
selection renders no rows; with a selected key the group is
dereferenced (`none` embeds the TypeError thrown when the key is
absent from the grouping). -/
def attendanceRows (sel : Option String)
    (groups : List (String × List AttRecord)) : Option (List AttRecord) :=
  match sel with
  | none => some []
  | some w => getGroup? w groups

/-- What `MentorSectionAttendance.render` shows: the loading message or
the attendance table rows of the selected week. -/
inductive AttView where
  | loading : AttView
  | table (rows : List AttRecord) : AttView
deriving DecidableEq, Repr

/-- MentorSectionAttendance.render for a fresh component (stage
`stored` holds the `selectedWeek` component state): when not loaded the
loading affordance is rendered; when loaded, the table of the
effectively selected week. -/
def mentorAttendanceView (loaded : Bool) (stored : Option String)
    (groups : List (String × List AttRecord)) : Option AttView :=
  if loaded then
    (attendanceRows (defaultSelectedWeek stored loaded (groups.map Prod.fst))
      groups).map AttView.table
  else
    some AttView.loading

/-! ### Sections by weekday (Course.js) -/

/-- Course.js lines 10-18: the `dayOfWeek` object mapping weekday names
to canonical indices, Monday 0 through Sunday 6. -/
def dayOfWeek : List (String × Nat) :=
  [("Monday", 0), ("Tuesday", 1), ("Wednesday", 2), ("Thursday", 3),
   ("Friday", 4), ("Saturday", 5), ("Sunday", 6)]

/-- The canonical index `dayOfWeek[d]` of a weekday name; weekday names
outside the seven-entry table are a contract violation of the caller
(spec section 4.2) and default to 7 here. -/
def dayIndex (d : String) : Nat :=
  (dayOfWeek.lookup d).getD 7

/-- Course.js lines 102-106 `dayComparator`, as the boolean order
underlying the numeric comparator `dayOfWeek[day1] - dayOfWeek[day2]`
on grouped entries. -/
def dayLE (e1 e2 : String × List Section) : Bool :=
  decide (dayIndex e1.fst ≤ dayIndex e2.fst)

/-- Course.js `Day` component, lines 157-168: the boolean order
underlying the numeric comparator `time1 - time2` on start times. -/
def timeLE (s1 s2 : Section) : Bool :=
  decide (s1.defaultSpacetime.startTime ≤ s2.defaultSpacetime.startTime)

/-- Course.js lines 88-93: `groupBy(sections, s => s.defaultSpacetime.dayOfWeek)`. -/
def sectionsByDay (sections : List Section) : List (String × List Section) :=
  groupByKey (fun s => s.defaultSpacetime.dayOfWeek) sections

/-- Course.js render, lines 108-109: `Object.entries(sections).sort(dayComparator)`
(JavaScript `Array.prototype.sort` is a stable sort, embedded as
`mergeSort`). -/
def sortedDayEntries (sections : List Section) : List (String × List Section) :=
  (sectionsByDay sections).mergeSort dayLE

/-- The day-grouped section listing the `Course` render displays: days
sorted canonically, and within each day the `Day` component's stable
sort of the sections by start time. -/
def courseDays (sections : List Section) : List (String × List Section) :=
  (sortedDayEntries sections).map (fun e => (e.fst, e.snd.mergeSort timeLE))

/-! ### Cohort tab date formatter (MentorSection.js lines 65-88) -/

/-- MentorSection.js `MONTH_NUMBERS`: the frozen object mapping the
twelve three-letter month abbreviations to 1-based month numbers. -/
def MONTH_NUMBERS : List (List Char × Nat) :=
  [("Jan".toList, 1), ("Feb".toList, 2), ("Mar".toList, 3),
   ("Apr".toList, 4), ("May".toList, 5), ("Jun".toList, 6),
   ("Jul".toList, 7), ("Aug".toList, 8), ("Sep".toList, 9),
   ("Oct".toList, 10), ("Nov".toList, 11), ("Dec".toList, 12)]

/-- Embedding of JavaScript `String.prototype.split` with a one-character
separator, over strings as `List Char`.  Always returns at least one
(possibly empty) part. -/
def splitChar (c : Char) : List Char → List (List Char)
  | [] => [[]]
  | x :: xs =>
    if x = c then [] :: splitChar c xs
    else
      match splitChar c xs with
      | [] => [[x]]
      | p :: ps => (x :: p) :: ps

/-- The whitespace class stripped by JavaScript `String.prototype.trim`
(restricted to the ASCII whitespace characters; the date strings at hand
contain only plain spaces). -/
def isJsSpace (c : Char) : Bool :=
  decide (c = ' ') || decide (c = '\t') || decide (c = '\n') || decide (c = '\r') ||
    decide (c = '\x0b') || decide (c = '\x0c')

/-- Embedding of JavaScript `String.prototype.trim`. -/
def trimChars (l : List Char) : List Char :=
  ((l.dropWhile isJsSpace).reverse.dropWhile isJsSpace).reverse

/-- Decimal rendering of a month number, as in the template literal
interpolation of a JavaScript number. -/
def natToChars (n : Nat) : List Char :=
  (toString n).toList

/-- MentorSection.js `parseDate` (lines 80-88):
`const [month, dayAndYear] = dateString.split(".")` followed by
`const day = dayAndYear.split(",")[0].trim()` and the template
`MONTH_NUMBERS[month] + "/" + day`.  When the input contains no dot the
destructured `dayAndYear` is `undefined` and the `.split` call throws:
embedded as `none`.  An unknown month abbreviation interpolates as the
text `undefined`, as the JavaScript template literal does. -/
def parseDate (dateString : List Char) : Option (List Char) :=
  match splitChar '.' dateString with
  | month :: dayAndYear :: _ =>
    let day := trimChars ((splitChar ',' dayAndYear).headD [])
    let m :=
      match MONTH_NUMBERS.lookup month with
      | some n => natToChars n
      | none => "undefined".toList
    some (m ++ '/' :: day)
  | _ => none

/-! ### Lemmas about the grouper -/

theorem getGroup?_filter_ne {α κ : Type} [DecidableEq κ] {k j : κ}
    (G : List (κ × List α)) (h : k ≠ j) :
    getGroup? k (G.filter (fun p => decide (p.fst ≠ j))) = getGroup? k G := by
  induction G with
  | nil => rfl
  | cons hd tl ih =>
    obtain ⟨k2, vs⟩ := hd
    by_cases hj : k2 = j
    · subst hj
      have hb : decide ((k2, vs).fst ≠ k2) = false := by simp
      simp only [List.filter_cons, hb, Bool.false_eq_true, if_false]
      simp only [getGroup?, if_neg h]
      exact ih
    · have hb : decide ((k2, vs).fst ≠ j) = true := by simpa using hj
      simp only [List.filter_cons, hb, if_true]
      by_cases hk : k = k2
      · subst hk
        simp [getGroup?]
      · simp only [getGroup?, if_neg hk]
        exact ih

theorem getGroup_groupByKey {α κ : Type} [DecidableEq κ] (key : α → κ)
    (l : List α) (k : κ) :
    getGroup k (groupByKey key l) = l.filter (fun x => decide (key x = k)) := by
  induction l with
  | nil => rfl
  | cons x xs ih =>
    simp only [groupByKey, List.filter_cons]
    by_cases hk : k = key x
    · subst hk
      simp only [getGroup, getGroup?, if_pos rfl, Option.getD_some, decide_eq_true_eq]
      rw [← ih]
      simp [getGroup]
    · have hne : ¬ (key x = k) := fun e => hk e.symm
      simp only [getGroup, getGroup?, if_neg hk, hne, decide_eq_true_eq, if_false]
      rw [getGroup?_filter_ne _ hk]
      exact ih

theorem groupByKey_keys_nodup {α κ : Type} [DecidableEq κ] (key : α → κ)
    (l : List α) : ((groupByKey key l).map Prod.fst).Nodup := by
  induction l with
  | nil => simp [groupByKey]
  | cons x xs ih =>
    simp only [groupByKey, List.map_cons, List.nodup_cons]
    constructor
    · intro hmem
      obtain ⟨p, hp, hfst⟩ := List.mem_map.mp hmem
      have := List.of_mem_filter hp
      simp [hfst] at this
    · have hsub : List.Sublist
          (((groupByKey key xs).filter (fun p => decide (p.fst ≠ key x))).map Prod.fst)
          ((groupByKey key xs).map Prod.fst) :=
        (List.filter_sublist _).map Prod.fst
      exact ih.sublist hsub

theorem getGroup_of_mem_nodup {α κ : Type} [DecidableEq κ] {k : κ}
    {vs : List α} {G : List (κ × List α)} (hn : (G.map Prod.fst).Nodup)
    (hmem : (k, vs) ∈ G) : getGroup k G = vs := by
  induction G with
  | nil => cases hmem
  | cons hd tl ih =>
    obtain ⟨k2, vs2⟩ := hd
    rcases List.mem_cons.mp hmem with heq | htl
    · cases heq
      simp [getGroup, getGroup?]
    · have hk : k ≠ k2 := by
        intro rfl2
        subst rfl2
        have : k ∈ tl.map Prod.fst := List.mem_map.mpr ⟨(k, vs), htl, rfl⟩
        simp only [List.map_cons, List.nodup_cons] at hn
        exact hn.1 this
      simp only [getGroup, getGroup?, if_neg hk]
      have hn' : (tl.map Prod.fst).Nodup := by
        simp only [List.map_cons, List.nodup_cons] at hn
        exact hn.2
      exact ih hn' htl

theorem mem_groupByKey_eq {α κ : Type} [DecidableEq κ] {key : α → κ}
    {l : List α} {k : κ} {vs : List α} (h : (k, vs) ∈ groupByKey key l) :
    vs = l.filter (fun x => decide (key x = k)) := by
  rw [← getGroup_groupByKey key l k]
  exact (getGroup_of_mem_nodup (groupByKey_keys_nodup key l) h).symm

theorem groupByKey_cons_head {α κ : Type} [DecidableEq κ] (key : α → κ)
    (x : α) (xs : List α) :
    (groupByKey key (x :: xs)).head?.map Prod.fst = some (key x) := by
  simp [groupByKey]

/-! ### Lemmas about the section sorting -/

theorem timeLE_trans : ∀ (a b c : Section),
    timeLE a b → timeLE b c → timeLE a c := by
  intro a b c hab hbc
  simp only [timeLE, decide_eq_true_eq] at *
  omega

theorem timeLE_total : ∀ (a b : Section), timeLE a b || timeLE b a := by
  intro a b
  simp only [timeLE, Bool.or_eq_true, decide_eq_true_eq]
  omega

theorem dayLE_trans : ∀ (a b c : String × List Section),
    dayLE a b → dayLE b c → dayLE a c := by
  intro a b c hab hbc
  simp only [dayLE, decide_eq_true_eq] at *
  omega

theorem dayLE_total : ∀ (a b : String × List Section), dayLE a b || dayLE b a := by
  intro a b
  simp only [dayLE, Bool.or_eq_true, decide_eq_true_eq]
  omega

theorem mergeSort_timeLE_filter (l : List Section) (t : Int) :
    (l.mergeSort timeLE).filter (fun s => decide (s.defaultSpacetime.startTime = t))
      = l.filter (fun s => decide (s.defaultSpacetime.startTime = t)) := by
  set p : Section → Bool := fun s => decide (s.defaultSpacetime.startTime = t) with hp
  have hpair : (l.filter p).Pairwise (fun a b => timeLE a b = true) := by
    apply List.pairwise_of_forall_mem_list
    intro a ha b hb
    have ha2 : p a = true := List.of_mem_filter ha
    have hb2 : p b = true := List.of_mem_filter hb
    simp only [hp, decide_eq_true_eq] at ha2 hb2
    simp only [timeLE, decide_eq_true_eq]
    omega
  have h1 : List.Sublist (l.filter p) (l.mergeSort timeLE) :=
    List.sublist_mergeSort timeLE_trans timeLE_total hpair (List.filter_sublist l)
  have hself : (l.filter p).filter p = l.filter p :=
    List.filter_eq_self.mpr (fun a ha => List.of_mem_filter ha)
  have h2 : List.Sublist (l.filter p) ((l.mergeSort timeLE).filter p) := by
    have := h1.filter p
    rwa [hself] at this
  have h3 : List.Perm ((l.mergeSort timeLE).filter p) (l.filter p) :=
    (List.mergeSort_perm l timeLE).filter p
  exact (h2.eq_of_length h3.length_eq.symm).symm

/-! ### Lemmas about the date-string split -/

theorem splitChar_ne_nil (c : Char) (l : List Char) : splitChar c l ≠ [] := by
  induction l with
  | nil => simp [splitChar]
  | cons x xs ih =>
    by_cases hx : x = c
    · simp [splitChar, hx]
    · simp only [splitChar, if_neg hx]
      split
      · simp
      · simp

theorem splitChar_not_mem {c : Char} {l : List Char} (h : c ∉ l) :
    splitChar c l = [l] := by
  induction l with
  | nil => rfl
  | cons x xs ih =>
    have hx : ¬ (x = c) := fun e => h (e ▸ List.mem_cons_self x xs)
    have hxs : c ∉ xs := fun hh => h (List.mem_cons_of_mem x hh)
    simp only [splitChar, if_neg hx, ih hxs]

theorem splitChar_append {c : Char} {l₁ : List Char} (l₂ : List Char)
    (h : c ∉ l₁) : splitChar c (l₁ ++ c :: l₂) = l₁ :: splitChar c l₂ := by
  induction l₁ with
  | nil => simp [splitChar]
  | cons x xs ih =>
    have hx : ¬ (x = c) := fun e => h (e ▸ List.mem_cons_self x xs)
    have hxs : c ∉ xs := fun hh => h (List.mem_cons_of_mem x hh)
    simp only [List.cons_append, splitChar, if_neg hx, List.append_eq, ih hxs]

theorem trimChars_cons_space (l : List Char) :
    trimChars (' ' :: l) = trimChars l := by
  have hsp : isJsSpace ' ' = true := by decide
  simp [trimChars, List.dropWhile_cons, hsp]

theorem month_keys_nodot : ∀ p ∈ MONTH_NUMBERS, '.' ∉ p.fst := by
  decide

theorem month_lookup_of_mem {k : List Char} {v : Nat}
    (h : (k, v) ∈ MONTH_NUMBERS) : MONTH_NUMBERS.lookup k = some v := by
  fin_cases h <;> decide

/-! ### Claim theorems -/

/-- C1: the enroll button is disabled exactly when the student is already
enrolled, or the enrollment window evaluation is false, or
`available = capacity - enrolledCount` is zero.  The claim further says
the enrolled flag becomes true exactly when some fetched profile's
course equals the current course id; the code violates this: the
profiles continuation reads the unbound identifier `state` (instead of
`this.state`), raising a ReferenceError, so the flag update never
happens (`profilesContinuation` is `none` on every input, in particular
on the failing input of a single profile for the current course, where
the claim requires the flag to become true, as `enrolledFlag` shows the
intended computation would). -/
theorem course_enrolled_flag_unbound_state :
    (∀ (en isOpen : Bool) (s : Section),
        enrollDisabled en isOpen s = true
          ↔ en = true ∨ isOpen = false ∨ available s = 0)
  ∧ (∀ profiles : List Profile, profilesContinuation profiles = none)
  ∧ profilesContinuation [⟨1⟩] = none
  ∧ enrolledFlag [⟨1⟩] 1 = true := by
  refine ⟨?_, fun _ => rfl, rfl, by decide⟩
  intro en isOpen s
  cases en <;> cases isOpen <;> simp [enrollDisabled]

/-- C2: the enrollment-window evaluation is true exactly on the open
interval: strictly between start and end, and false at both endpoints
(hence false outside as well). -/
theorem enrollment_window_strict_open (now a b : Int) :
    (enrollmentOpen now a b = true ↔ a < now ∧ now < b)
  ∧ enrollmentOpen a a b = false
  ∧ enrollmentOpen b a b = false := by
  refine ⟨?_, ?_, ?_⟩ <;> simp [enrollmentOpen]

/-- C3: the rejected-enroll handler is a total function of the reason
code: `already_enrolled` maps to the one-section-per-course message,
`course_closed` and `section_full` map to the identical
not-open-for-enrollment message, and any unrecognized code maps to the
generic unknown-error message while the failure body's message is
retained in the console log; every rejection produces a message (no
crash). -/
theorem enroll_failure_message_mapping (b : EnrollBody)
    (h : b.shortCode ∉ knownEnrollCodes) :
    (∀ m : String, handleEnrollFailure ⟨"already_enrolled", m⟩
        = ("You are already enrolled in this course. You can only enroll in one section per course.", []))
  ∧ (∀ m : String, handleEnrollFailure ⟨"course_closed", m⟩
        = ("This course is not currently open for enrollment.", []))
  ∧ (∀ m : String, (handleEnrollFailure ⟨"section_full", m⟩).fst
        = (handleEnrollFailure ⟨"course_closed", m⟩).fst)
  ∧ (handleEnrollFailure b).fst = "An unknown error has occurred."
  ∧ b.message ∈ (handleEnrollFailure b).snd := by
  have hdef : handleEnrollFailure b
      = ("An unknown error has occurred.",
         ["An unknown error has occurred.", b.message]) := by
    unfold handleEnrollFailure
    split
    · simp_all [knownEnrollCodes]
    · simp_all [knownEnrollCodes]
    · simp_all [knownEnrollCodes]
    · rfl
  refine ⟨fun m => rfl, fun m => rfl, fun m => rfl, ?_, ?_⟩
  · rw [hdef]
  · rw [hdef]; simp

/-- Witness for C3 at the unrecognized code `bogus_code`. -/
theorem enroll_failure_message_mapping_witness :
    (handleEnrollFailure ⟨"bogus_code", "server detail"⟩).fst
        = "An unknown error has occurred."
  ∧ "server detail" ∈ (handleEnrollFailure ⟨"bogus_code", "server detail"⟩).snd := by
  have h := enroll_failure_message_mapping ⟨"bogus_code", "server detail"⟩ (by decide)
  exact ⟨h.2.2.2.1, h.2.2.2.2⟩

/-- C4: the weekly cohort mapping reverses the whole flat record list
and then groups stably by week-start, so each weekly cohort lists its
records in reverse input order; the example input
`[[w1,a],[w2,b],[w1,c]]` yields `w1 -> [c,a]`, and an empty input
yields an empty mapping. -/
theorem attendance_reverse_then_group (flat : List AttRecord) (w : String) :
    getGroup w (groupAttendances flat)
      = (flat.filter (fun a => decide (a.weekStart = w))).reverse
  ∧ groupAttendances [] = []
  ∧ groupAttendances
        [⟨1, "PR", "w1", "a", 10⟩, ⟨2, "PR", "w2", "b", 11⟩,
         ⟨3, "PR", "w1", "c", 12⟩]
      = [("w1", [⟨3, "PR", "w1", "c", 12⟩, ⟨1, "PR", "w1", "a", 10⟩]),
         ("w2", [⟨2, "PR", "w2", "b", 11⟩])] := by
  refine ⟨?_, rfl, by decide⟩
  rw [groupAttendances,
    getGroup_groupByKey (fun a : AttRecord => a.weekStart) flat.reverse w,
    List.filter_reverse]

/-- C5: the displayed day groups are in canonical week order
(Monday 0 through Sunday 6, per the `dayOfWeek` table) for every input
order, and within each day the sections are ascending by start time
with ties kept in stable input order (the sections of a day at any
fixed start time appear exactly in input order). -/
theorem sections_day_and_time_order (sections : List Section) :
    ((courseDays sections).map (fun e => dayIndex e.fst)).Pairwise (· ≤ ·)
  ∧ (dayIndex "Monday" = 0 ∧ dayIndex "Tuesday" = 1 ∧ dayIndex "Wednesday" = 2
      ∧ dayIndex "Thursday" = 3 ∧ dayIndex "Friday" = 4
      ∧ dayIndex "Saturday" = 5 ∧ dayIndex "Sunday" = 6)
  ∧ (∀ e ∈ courseDays sections,
        e.snd.Pairwise (fun s1 s2 =>
          s1.defaultSpacetime.startTime ≤ s2.defaultSpacetime.startTime)
      ∧ ∀ t : Int,
          e.snd.filter (fun s => decide (s.defaultSpacetime.startTime = t))
            = (sections.filter (fun s =>
                decide (s.defaultSpacetime.dayOfWeek = e.fst))).filter
                (fun s => decide (s.defaultSpacetime.startTime = t))) := by
  refine ⟨?_, by decide, ?_⟩
  · have hsorted : (sortedDayEntries sections).Pairwise (fun a b => dayLE a b = true) :=
      List.sorted_mergeSort dayLE_trans dayLE_total _
    have hmap : ((sortedDayEntries sections).map (fun e => dayIndex e.fst)).Pairwise
        (· ≤ ·) := by
      rw [List.pairwise_map]
      refine hsorted.imp ?_
      intro a b hab
      simpa [dayLE] using hab
    have : (courseDays sections).map (fun e => dayIndex e.fst)
        = (sortedDayEntries sections).map (fun e => dayIndex e.fst) := by
      simp [courseDays, List.map_map, Function.comp]
    rwa [this]
  · intro e he
    obtain ⟨e0, he0, rfl⟩ := List.mem_map.mp he
    obtain ⟨k0, v0⟩ := e0
    dsimp only at he0 ⊢
    constructor
    · have hs := List.sorted_mergeSort timeLE_trans timeLE_total v0
      refine hs.imp ?_
      intro a b hab
      simpa [timeLE] using hab
    · intro t
      have hmem : (k0, v0) ∈ sectionsByDay sections := List.mem_mergeSort.mp he0
      have hval : v0 = sections.filter (fun s =>
          decide (s.defaultSpacetime.dayOfWeek = k0)) :=
        mem_groupByKey_eq hmem
      rw [mergeSort_timeLE_filter, hval]

/-- C6: the drop workflow is a three-state machine: request-drop moves
initial to confirm-pending, cancel moves confirm-pending back to a
state identical to initial firing no remote call, confirm moves
confirm-pending to dropped, confirm from initial has no rendered
handler and is a no-op, and no single transition reaches dropped from
initial. -/
theorem drop_workflow_three_state :
    dropStep DropStage.INITIAL DropEvent.requestDrop = (DropStage.CONFIRM, 0)
  ∧ dropStep DropStage.CONFIRM DropEvent.cancel = (DropStage.INITIAL, 0)
  ∧ dropStep DropStage.CONFIRM DropEvent.confirm = (DropStage.DROPPED, 1)
  ∧ dropStep DropStage.INITIAL DropEvent.confirm = (DropStage.INITIAL, 0)
  ∧ dropHandled DropStage.INITIAL DropEvent.confirm = false
  ∧ (dropStep DropStage.INITIAL DropEvent.requestDrop).fst ≠ DropStage.DROPPED
  ∧ (dropStep DropStage.INITIAL DropEvent.cancel).fst ≠ DropStage.DROPPED
  ∧ (dropStep DropStage.INITIAL DropEvent.confirm).fst ≠ DropStage.DROPPED := by
  decide

/-- C7 counterexample: in the `performDrop` trace the stage change to
DROPPED does not occur before the remote call completes (it is the
continuation of the call), refuting the claim that the transition is
optimistic and happens before completion. -/
theorem drop_confirm_not_before_completion :
    ¬ (dropCallCount (performDropTrace true) = 1
       ∧ occursBefore (DropAction.setStage DropStage.DROPPED)
           (DropAction.remoteDropComplete true) (performDropTrace true) = true) := by
  decide

/-- C7 (amended): when confirm fires in confirm-pending, the remote
drop call is dispatched exactly once, and the single stage change to
dropped happens after the call completes, unconditionally on the
response flag (no rollback path on failure). -/
theorem drop_confirm_after_completion (ok : Bool) :
    dropCallCount (performDropTrace ok) = 1
  ∧ setStageCount (performDropTrace ok) = 1
  ∧ occursBefore DropAction.remoteDropCall (DropAction.setStage DropStage.DROPPED)
      (performDropTrace ok) = true
  ∧ occursBefore (DropAction.remoteDropComplete ok)
      (DropAction.setStage DropStage.DROPPED) (performDropTrace ok) = true
  ∧ stageAfter DropStage.CONFIRM (performDropTrace ok) = DropStage.DROPPED := by
  cases ok <;> decide

/-- C8: with no stored selection the default selected cohort is the
first key of the grouping (which is the week-start of the most recently
appended record, per the reversal); on an empty loaded grouping the
selection is none and an empty table is rendered without error, and
before loading the loading affordance is rendered. -/
theorem attendance_default_selection (groups : List (String × List AttRecord))
    (flat : List AttRecord) (r : AttRecord) :
    defaultSelectedWeek none true (groups.map Prod.fst) = (groups.map Prod.fst).head?
  ∧ (groupAttendances (flat ++ [r])).head?.map Prod.fst = some r.weekStart
  ∧ defaultSelectedWeek none true [] = none
  ∧ mentorAttendanceView true none [] = some (AttView.table [])
  ∧ mentorAttendanceView false none groups = some AttView.loading := by
  refine ⟨rfl, ?_, rfl, rfl, rfl⟩
  rw [groupAttendances, List.reverse_append]
  simp only [List.reverse_cons, List.reverse_nil, List.nil_append,
    List.singleton_append]
  exact groupByKey_cons_head (fun a : AttRecord => a.weekStart) r flat.reverse

/-- C9: the displayed availability is `capacity - enrolledCount`,
non-negative under the occupancy invariant, and the unit word is the
singular exactly when one spot is available. -/
theorem available_spots_display (s : Section)
    (h : s.enrolledStudents ≤ s.capacity) :
    available s = s.capacity - s.enrolledStudents
  ∧ 0 ≤ available s
  ∧ (pluralized_spot s = "spot" ↔ available s = 1)
  ∧ (pluralized_spot s = "spots" ↔ available s ≠ 1) := by
  refine ⟨rfl, ?_, ?_, ?_⟩
  · simp only [available]
    omega
  · by_cases ha : available s = 1 <;> simp [pluralized_spot, ha]
  · by_cases ha : available s = 1 <;> simp [pluralized_spot, ha]

/-- Witness for C9 at the full section of the spec scenario
(capacity 5, enrolled 5). -/
theorem available_spots_display_witness :
    available ⟨1, ⟨"Monday", 0, "Soda 283"⟩, 5, 5⟩
        = (⟨1, ⟨"Monday", 0, "Soda 283"⟩, 5, 5⟩ : Section).capacity
          - (⟨1, ⟨"Monday", 0, "Soda 283"⟩, 5, 5⟩ : Section).enrolledStudents
  ∧ 0 ≤ available ⟨1, ⟨"Monday", 0, "Soda 283"⟩, 5, 5⟩
  ∧ (pluralized_spot ⟨1, ⟨"Monday", 0, "Soda 283"⟩, 5, 5⟩ = "spot"
      ↔ available ⟨1, ⟨"Monday", 0, "Soda 283"⟩, 5, 5⟩ = 1)
  ∧ (pluralized_spot ⟨1, ⟨"Monday", 0, "Soda 283"⟩, 5, 5⟩ = "spots"
      ↔ available ⟨1, ⟨"Monday", 0, "Soda 283"⟩, 5, 5⟩ ≠ 1) :=
  available_spots_display ⟨1, ⟨"Monday", 0, "Soda 283"⟩, 5, 5⟩ (by decide)

/-- C10: on an input of the form month-abbreviation, dot, space, day
token, comma, space, year, the formatter returns the 1-based month
number, a slash, and the trimmed day token, discarding the year. -/
theorem parseDate_month_day (monthName : List Char) (m : Nat)
    (day year : List Char) (hm : (monthName, m) ∈ MONTH_NUMBERS)
    (hd1 : '.' ∉ day) (hd2 : ',' ∉ day) (hy : '.' ∉ year) :
    parseDate (monthName ++ '.' :: ' ' :: (day ++ ',' :: ' ' :: year))
      = some (natToChars m ++ '/' :: trimChars day) := by
  have hmdot : '.' ∉ monthName := month_keys_nodot (monthName, m) hm
  have hrest : '.' ∉ (' ' :: (day ++ ',' :: ' ' :: year)) := by
    intro hc
    rcases List.mem_cons.mp hc with h1 | h2
    · exact absurd h1.symm (by decide)
    rcases List.mem_append.mp h2 with h3 | h4
    · exact hd1 h3
    rcases List.mem_cons.mp h4 with h5 | h6
    · exact absurd h5.symm (by decide)
    rcases List.mem_cons.mp h6 with h7 | h8
    · exact absurd h7.symm (by decide)
    · exact hy h8
  have hsplit1 : splitChar '.' (monthName ++ '.' :: ' ' :: (day ++ ',' :: ' ' :: year))
      = monthName :: splitChar '.' (' ' :: (day ++ ',' :: ' ' :: year)) :=
    splitChar_append _ hmdot
  have hsplit2 : splitChar '.' (' ' :: (day ++ ',' :: ' ' :: year))
      = [' ' :: (day ++ ',' :: ' ' :: year)] := splitChar_not_mem hrest
  have hnocomma : ',' ∉ (' ' :: day) := by
    intro hc
    rcases List.mem_cons.mp hc with h1 | h2
    · exact absurd h1.symm (by decide)
    · exact hd2 h2
  have hsplit3 : splitChar ',' ((' ' :: day) ++ ',' :: (' ' :: year))
      = (' ' :: day) :: splitChar ',' (' ' :: year) :=
    splitChar_append _ hnocomma
  rw [parseDate, hsplit1, hsplit2]
  simp only [List.cons_append] at hsplit3
  dsimp only
  rw [hsplit3]
  simp only [List.headD_cons, trimChars_cons_space, month_lookup_of_mem hm]

/-- Witness for C10 at the documented example `Jan. 6, 2020`. -/
theorem parseDate_month_day_witness :
    parseDate ("Jan".toList ++ '.' :: ' ' :: ("6".toList ++ ',' :: ' ' :: "2020".toList))
      = some (natToChars 1 ++ '/' :: trimChars "6".toList) :=
  parseDate_month_day "Jan".toList 1 "6".toList "2020".toList
    (by decide) (by decide) (by decide) (by decide)

end CsmWeb
